import Mathlib

/-!
Verification of the whisper_webui job-orchestration subsystem against its
natural-language specification.

The repository ships the React frontend (hooks, API client, job tables,
selectors) and the REST API documentation.  Frontend behaviour is embedded
directly from the JSX sources.  The backend registry, lifecycle controller
and worker runtime are not part of the checked-in sources, so those
operations are modelled from the specification and the API documentation;
each such definition carries a doc comment starting with
"Modelled from the spec:".
-/

namespace WhisperWebUI

/-- Job status enum, from the API documentation status-flow section and the
frontend switch statements (pending, processing, completed, failed). -/
inductive Status where
  | pending
  | processing
  | completed
  | failed
deriving DecidableEq, Repr

/-- A status is terminal when it is completed or failed. -/
def Status.isTerminal : Status → Bool
  | .completed => true
  | .failed => true
  | _ => false

/-- Job type enum {transcribe, enhance}. -/
inductive JobType where
  | transcribe
  | enhance
deriving DecidableEq, Repr

/-- Rank of a status along the canonical lifecycle order
pending, processing, {completed | failed}. -/
def statusRank : Status → Nat
  | .pending => 0
  | .processing => 1
  | .completed => 2
  | .failed => 2

/-- Execution-relevant state of one job row: its status and progress. -/
structure ExecState where
  status : Status
  progress : Nat
deriving DecidableEq, Repr

/-- Modelled from the spec: the Worker Runtime per-job transitions (the
worker code is not under src/; this follows section 4.3 of the spec and the
Job Status Flow section of the API documentation).  A worker claims a
pending job and writes processing, writes non-decreasing progress values
while processing, and finalizes with either completed (forcing progress to
100) or failed.  Terminal states have no outgoing transitions. -/
inductive workerStep : ExecState → ExecState → Prop where
  | claim (p : Nat) : workerStep ⟨.pending, p⟩ ⟨.processing, p⟩
  | report (p q : Nat) : p ≤ q → workerStep ⟨.processing, p⟩ ⟨.processing, q⟩
  | complete (p : Nat) : workerStep ⟨.processing, p⟩ ⟨.completed, 100⟩
  | fail (p : Nat) : workerStep ⟨.processing, p⟩ ⟨.failed, p⟩

/-- The polling hook useJob stops auto-refresh exactly when the fetched
status is completed or failed (part_000, fetchJob). -/
def stopPollingAfter (s : Status) : Bool :=
  s == .completed || s == .failed

theorem workerStep_rank_mono {s t : ExecState} (h : workerStep s t) :
    statusRank s.status ≤ statusRank t.status := by
  cases h <;> simp [statusRank]

theorem workerStep_terminal_absorbing {s t : ExecState}
    (hterm : s.status.isTerminal = true) (h : workerStep s t) : False := by
  cases h <;> simp [Status.isTerminal] at hterm

theorem workerReach_rank_mono {s t : ExecState}
    (h : Relation.ReflTransGen workerStep s t) :
    statusRank s.status ≤ statusRank t.status := by
  induction h with
  | refl => exact le_rfl
  | tail _ hstep ih => exact le_trans ih (workerStep_rank_mono hstep)

theorem workerReach_terminal_frozen {s t : ExecState}
    (h : Relation.ReflTransGen workerStep s t)
    (hterm : s.status.isTerminal = true) : t = s := by
  induction h with
  | refl => rfl
  | tail _ hstep ih =>
      subst ih
      exact absurd hstep (fun hc => workerStep_terminal_absorbing hterm hc)

theorem workerStep_into_completed {s t : ExecState} (h : workerStep s t)
    (hc : t.status = .completed) : s.status = .processing := by
  cases h <;> simp_all

theorem workerReach_of_le (f : ℕ → ExecState)
    (hstep : ∀ n, Relation.ReflTransGen workerStep (f n) (f (n + 1)))
    {i j : ℕ} (hij : i ≤ j) : Relation.ReflTransGen workerStep (f i) (f j) := by
  induction j, hij using Nat.le_induction with
  | base => exact Relation.ReflTransGen.refl
  | succ m _ ih => exact Relation.ReflTransGen.trans ih (hstep m)

/-- C1: along any polled observation sequence of one job (each sample sees a
state reachable from the previous sample by worker transitions), the status
rank never decreases (so the observed sequence is a prefix of the order
pending, processing, terminal), a job reaching completed must have been
claimed into processing first, once a terminal status is observed the state
never changes again (in particular the job never shows two different
terminal statuses), and the client polling hook stops polling exactly on
terminal statuses. -/
theorem observed_status_sequence_is_lifecycle_ordered
    (f : ℕ → ExecState) (_h0 : f 0 = ⟨.pending, 0⟩)
    (hstep : ∀ n, Relation.ReflTransGen workerStep (f n) (f (n + 1))) :
    (∀ i j, i ≤ j → statusRank (f i).status ≤ statusRank (f j).status) ∧
    (∀ s t, workerStep s t → t.status = .completed → s.status = .processing) ∧
    (∀ i j, (f i).status.isTerminal = true → i ≤ j → f j = f i) ∧
    (∀ i j, (f i).status = .completed → (f j).status ≠ .failed) ∧
    (∀ s, stopPollingAfter s = true ↔ s.isTerminal = true) := by
  refine ⟨?_, ?_, ?_, ?_, ?_⟩
  · intro i j hij
    exact workerReach_rank_mono (workerReach_of_le f hstep hij)
  · intro s t h hc
    exact workerStep_into_completed h hc
  · intro i j hterm hij
    exact workerReach_terminal_frozen (workerReach_of_le f hstep hij) hterm
  · intro i j hci hfj
    rcases le_total i j with hij | hji
    · have := workerReach_terminal_frozen (workerReach_of_le f hstep hij)
        (by simp [hci, Status.isTerminal])
      rw [this, hci] at hfj
      exact absurd hfj (by simp)
    · have := workerReach_terminal_frozen (workerReach_of_le f hstep hji)
        (by simp [hfj, Status.isTerminal])
      rw [this, hfj] at hci
      exact absurd hci (by simp)
  · intro s
    cases s <;> simp [stopPollingAfter, Status.isTerminal]

/-- Witness for C1 at the constant observation sequence of a freshly
submitted job. -/
theorem observed_status_sequence_is_lifecycle_ordered_witness :
    (∀ i j : ℕ, i ≤ j →
      statusRank (ExecState.mk .pending 0).status ≤
        statusRank (ExecState.mk .pending 0).status) ∧
    (∀ s t, workerStep s t → t.status = .completed → s.status = .processing) ∧
    (∀ i j : ℕ, (ExecState.mk .pending 0).status.isTerminal = true → i ≤ j →
      ExecState.mk .pending 0 = ExecState.mk .pending 0) ∧
    (∀ _ _ : ℕ, (ExecState.mk .pending 0).status = .completed →
      (ExecState.mk .pending 0).status ≠ .failed) ∧
    (∀ s, stopPollingAfter s = true ↔ s.isTerminal = true) :=
  observed_status_sequence_is_lifecycle_ordered (fun _ => ⟨.pending, 0⟩) rfl
    (fun _ => Relation.ReflTransGen.refl)

/-- Error kinds surfaced by the lifecycle controller and query layer. -/
inductive ApiError where
  | notFound
  | invalidPrecondition
  | invalidState
deriving DecidableEq, Repr

/-- One job row, with the registry fields the verified claims depend on
(the remaining documented fields do not influence these operations). -/
structure Job where
  id : Nat
  job_type : JobType
  status : Status
  progress : Nat
  archived : Bool
  auto_enhance : Bool
deriving DecidableEq, Repr

/-- The job registry as the list of its rows. -/
abbrev Registry := List Job

/-- Lookup of a row by id, as used by the single-job endpoints. -/
def findJob (reg : Registry) (jobId : Nat) : Option Job :=
  reg.find? (fun j => j.id == jobId)

/-- Modelled from the spec: the backend handler for PUT
/api/jobs/{job_id}/archive (the lifecycle controller is not under src/;
this follows section 4.1 of the spec and the Archive Job section of the
API documentation).  Sets archived to true unconditionally, regardless of
status, and fails with NotFound exactly when the id does not exist. -/
def archive (reg : Registry) (jobId : Nat) : Except ApiError Registry :=
  if reg.any (fun j => j.id == jobId) then
    .ok (reg.map fun j => if j.id == jobId then { j with archived := true } else j)
  else
    .error .notFound

/-- Modelled from the spec: the backend handler for PUT
/api/jobs/{job_id}/unarchive, symmetric to archive. -/
def unarchive (reg : Registry) (jobId : Nat) : Except ApiError Registry :=
  if reg.any (fun j => j.id == jobId) then
    .ok (reg.map fun j => if j.id == jobId then { j with archived := false } else j)
  else
    .error .notFound

/-- Modelled from the spec: the query-layer get_result operation (the
backend is not under src/; this follows section 4.4 of the spec and the Get
Job Result section of the API documentation).  Fails with InvalidState
whenever the status of the referenced job is not completed. -/
def getResult (reg : Registry) (jobId : Nat) : Except ApiError Job :=
  match findJob reg jobId with
  | none => .error .notFound
  | some j => if j.status = .completed then .ok j else .error .invalidState

/-- Modelled from the spec: the lifecycle-controller validation of
submit(enhance, input_ref, parameters) (the backend is not under src/;
this follows section 4.1 of the spec and scenario B).  The source job must
exist and be completed, otherwise the call fails with InvalidPrecondition
and no row is created; on success a fresh pending enhance row is
appended. -/
def submitEnhance (reg : Registry) (sourceId newId : Nat) :
    Except ApiError Registry :=
  match findJob reg sourceId with
  | none => .error .invalidPrecondition
  | some src =>
      if src.status = .completed then
        .ok (reg ++ [{ id := newId, job_type := .enhance, status := .pending,
                       progress := 0, archived := false, auto_enhance := false }])
      else
        .error .invalidPrecondition

/-- Actions offered by the job tables. -/
inductive UIAction where
  | view
  | download
  | archive
  | delete
  | unarchive
deriving DecidableEq, Repr

/-- Actions rendered by the JobQueue actions cell (JobQueue.jsx): view,
download and archive buttons only inside the completed-status branch, the
delete button for every row. -/
def jobQueueActions (s : Status) : List UIAction :=
  (if s = .completed then [.view, .download, .archive] else []) ++ [.delete]

/-- Action buttons rendered by the JobTable actions cell (part_001), paired
with their enabled flag: view and download are always rendered but enabled
only for completed jobs, archive and unarchive depend only on the
showArchive and showUnarchive props (never on status), delete is always
rendered and enabled. -/
def jobTableActions (showArchive showUnarchive : Bool) (s : Status) :
    List (UIAction × Bool) :=
  [(.view, s == .completed), (.download, s == .completed)] ++
  (if showArchive then [(.archive, true)] else []) ++
  (if showUnarchive then [(.unarchive, true)] else []) ++
  [(.delete, true)]

/-- Click handler handleView of JobTable (part_001): returns early unless
the job is completed, otherwise opens the viewer on the job id. -/
def jobTableHandleView (j : Job) : Option Nat :=
  if j.status = .completed then some j.id else none

/-- Click handler handleDownload of JobTable (part_001): returns early
unless the job is completed, otherwise issues the download request for the
job id. -/
def jobTableHandleDownload (j : Job) : Option Nat :=
  if j.status = .completed then some j.id else none

/-- What a progress cell renders. -/
inductive ProgressCell where
  | queued
  | errorText
  | bar (pct : Nat)
  | fixed100
deriving DecidableEq, Repr

/-- Progress cell of JobQueue.jsx: a numeric bar with the stored progress
for processing, the text Queued for pending, the text Error for failed,
and a fixed 100 percent label for completed. -/
def jobQueueProgressCell (s : Status) (progress : Nat) : ProgressCell :=
  match s with
  | .processing => .bar progress
  | .pending => .queued
  | .failed => .errorText
  | .completed => .fixed100

/-- Progress cell of JobTable (part_001): the text Queued for pending, the
text Error for failed, and otherwise (processing and completed alike) a
numeric bar showing the stored progress value. -/
def jobTableProgressCell (s : Status) (progress : Nat) : ProgressCell :=
  match s with
  | .pending => .queued
  | .failed => .errorText
  | _ => .bar progress

/-- Sample rows used by concrete witnesses. -/
def sampleFailedJob : Job :=
  { id := 1, job_type := .transcribe, status := .failed, progress := 37,
    archived := false, auto_enhance := false }

def samplePendingJob : Job :=
  { id := 1, job_type := .transcribe, status := .pending, progress := 0,
    archived := false, auto_enhance := false }

def sampleCompletedJob : Job :=
  { id := 2, job_type := .transcribe, status := .completed, progress := 100,
    archived := false, auto_enhance := false }

theorem any_id_eq_true {reg : Registry} {jobId : Nat} {j : Job}
    (hmem : j ∈ reg) (hid : j.id = jobId) :
    reg.any (fun j => j.id == jobId) = true := by
  simp only [List.any_eq_true]
  exact ⟨j, hmem, by simp [hid]⟩

/-- C2 counterexample: in the JobQueue actions cell the archive button is
offered for a completed job but not for a failed job, so the archive
operation is not available for non-completed jobs exactly as for completed
ones. -/
theorem jobQueue_archive_button_only_for_completed :
    UIAction.archive ∈ jobQueueActions .completed ∧
    UIAction.archive ∉ jobQueueActions .failed := by
  decide

/-- C2 amended: the backend archive and unarchive operations toggle the
archived flag unconditionally for any existing id regardless of status,
failing with NotFound exactly when the id does not exist, and the delete
button is offered for every status in the JobQueue; however the JobQueue
actions cell offers its archive button only for completed jobs, while the
JobTable used by the archive view offers archive for every status whenever
its showArchive prop is set. -/
theorem archive_unconditional_backend_queue_gates_button
    (reg : Registry) (jobId : Nat) :
    (∀ j ∈ reg, j.id = jobId →
      ∃ reg₂, archive reg jobId = .ok reg₂ ∧
        { j with archived := true } ∈ reg₂ ∧
      ∃ reg₃, unarchive reg jobId = .ok reg₃ ∧
        { j with archived := false } ∈ reg₃) ∧
    (∀ e, archive reg jobId = .error e ↔
      (e = .notFound ∧ ∀ j ∈ reg, j.id ≠ jobId)) ∧
    (∀ s, UIAction.delete ∈ jobQueueActions s) ∧
    (∀ s, UIAction.archive ∈ jobQueueActions s ↔ s = .completed) ∧
    (∀ s sa su, (UIAction.archive, true) ∈ jobTableActions sa su s ↔ sa = true) := by
  refine ⟨?_, ?_, ?_, ?_, ?_⟩
  · intro j hmem hid
    refine
      ⟨reg.map (fun k => if k.id == jobId then { k with archived := true } else k),
        ?_, ?_,
       reg.map (fun k => if k.id == jobId then { k with archived := false } else k),
        ?_, ?_⟩
    · simp [archive, any_id_eq_true hmem hid]
    · exact List.mem_map.mpr ⟨j, hmem, by simp [hid]⟩
    · simp [unarchive, any_id_eq_true hmem hid]
    · exact List.mem_map.mpr ⟨j, hmem, by simp [hid]⟩
  · intro e
    by_cases hany : reg.any (fun j => j.id == jobId) = true
    · rcases List.any_eq_true.mp hany with ⟨j, hj, hid⟩
      simp only [archive, hany, if_true]
      constructor
      · intro h
        exact absurd h (by simp)
      · rintro ⟨-, habs⟩
        exact absurd (by simpa using hid) (habs j hj)
    · rw [Bool.not_eq_true] at hany
      have hall : ∀ j ∈ reg, j.id ≠ jobId := by
        intro j hj hid
        have := any_id_eq_true hj hid
        simp [this] at hany
      simp [archive, hany, hall]
      constructor
      · intro h
        exact ⟨h.symm, hall⟩
      · rintro ⟨he, -⟩
        rw [he]
  · intro s
    cases s <;> decide
  · intro s
    cases s <;> decide
  · intro s sa su
    cases s <;> cases sa <;> cases su <;> decide

/-- Witness for C2 amended: archiving an existing failed job succeeds and
sets archived, exactly as for a completed job. -/
theorem archive_unconditional_backend_queue_gates_button_witness :
    ∃ reg₂, archive [sampleFailedJob] 1 = .ok reg₂ ∧
      { sampleFailedJob with archived := true } ∈ reg₂ ∧
    ∃ reg₃, unarchive [sampleFailedJob] 1 = .ok reg₃ ∧
      { sampleFailedJob with archived := false } ∈ reg₃ :=
  (archive_unconditional_backend_queue_gates_button [sampleFailedJob] 1).1
    sampleFailedJob (by simp) rfl

theorem workerStep_completed_progress {s t : ExecState} (h : workerStep s t)
    (hc : t.status = .completed) : t.progress = 100 := by
  cases h <;> simp_all

theorem workerReach_processing_mono {t u : ExecState}
    (h : Relation.ReflTransGen workerStep t u)
    (ht : t.status = .processing) (hu : u.status = .processing) :
    t.progress ≤ u.progress := by
  induction h with
  | refl => exact le_rfl
  | tail hab hbc ih =>
      cases hbc with
      | claim p =>
          have hrank := workerReach_rank_mono hab
          rw [ht] at hrank
          simp [statusRank] at hrank
      | report p q hpq => exact le_trans (ih rfl) hpq
      | complete p => simp at hu
      | fail p => simp at hu

/-- C3 counterexample: the JobTable progress cell renders the stored
numeric progress value for a completed job (here a stored value of 42),
not a fixed 100 percent, so the client does not render a numeric progress
value only for processing jobs. -/
theorem jobTable_renders_stored_progress_for_completed :
    jobTableProgressCell .completed 42 = .bar 42 ∧
    jobTableProgressCell .completed 42 ≠ .fixed100 := by
  decide

/-- C3 amended: in the modelled worker state machine the progress of a
reachable completed state is exactly 100 and progress is non-decreasing
while the status stays processing; the JobQueue progress cell renders the
stored numeric value only for processing jobs and a fixed 100 percent for
completed jobs, while the JobTable progress cell renders the stored
numeric value for processing and completed jobs alike; neither cell
displays the stored progress for pending or failed jobs, rendering the
texts Queued and Error instead. -/
theorem progress_invariants_and_rendering (s : ExecState)
    (hreach : Relation.ReflTransGen workerStep ⟨.pending, 0⟩ s) :
    (s.status = .completed → s.progress = 100) ∧
    (∀ t u, Relation.ReflTransGen workerStep t u → t.status = .processing →
      u.status = .processing → t.progress ≤ u.progress) ∧
    (∀ p, jobQueueProgressCell .processing p = .bar p ∧
      jobQueueProgressCell .completed p = .fixed100) ∧
    (∀ p, jobTableProgressCell .processing p = .bar p ∧
      jobTableProgressCell .completed p = .bar p) ∧
    (∀ p, jobQueueProgressCell .pending p = .queued ∧
      jobTableProgressCell .pending p = .queued ∧
      jobQueueProgressCell .failed p = .errorText ∧
      jobTableProgressCell .failed p = .errorText) := by
  refine ⟨?_, ?_, ?_, ?_, ?_⟩
  · intro hc
    rcases hreach.cases_tail with heq | ⟨c, -, hstep⟩
    · rw [heq] at hc
      exact absurd hc (by simp)
    · exact workerStep_completed_progress hstep hc
  · intro t u h ht hu
    exact workerReach_processing_mono h ht hu
  · intro p
    exact ⟨rfl, rfl⟩
  · intro p
    exact ⟨rfl, rfl⟩
  · intro p
    exact ⟨rfl, rfl, rfl, rfl⟩

/-- Witness for C3 amended, at the completed state reached by the run
claim then complete. -/
theorem progress_invariants_and_rendering_witness :
    ((ExecState.mk .completed 100).status = .completed →
      (ExecState.mk .completed 100).progress = 100) ∧
    (∀ t u, Relation.ReflTransGen workerStep t u → t.status = .processing →
      u.status = .processing → t.progress ≤ u.progress) ∧
    (∀ p, jobQueueProgressCell .processing p = .bar p ∧
      jobQueueProgressCell .completed p = .fixed100) ∧
    (∀ p, jobTableProgressCell .processing p = .bar p ∧
      jobTableProgressCell .completed p = .bar p) ∧
    (∀ p, jobQueueProgressCell .pending p = .queued ∧
      jobTableProgressCell .pending p = .queued ∧
      jobQueueProgressCell .failed p = .errorText ∧
      jobTableProgressCell .failed p = .errorText) :=
  progress_invariants_and_rendering ⟨.completed, 100⟩
    (Relation.ReflTransGen.tail
      (Relation.ReflTransGen.tail Relation.ReflTransGen.refl (workerStep.claim 0))
      (workerStep.complete 0))

/-- C6: get_result fails with InvalidState for every existing job whose
status is not completed and succeeds for a completed one; the JobTable
view and download handlers return early (issuing no request) for every
non-completed job and issue the request for a completed one; the JobQueue
view and download buttons are rendered exactly for completed jobs. -/
theorem get_result_invalid_state_and_client_gating
    (reg : Registry) (jobId : Nat) (j : Job) :
    (findJob reg jobId = some j → j.status ≠ .completed →
      getResult reg jobId = .error .invalidState) ∧
    (findJob reg jobId = some j → j.status = .completed →
      getResult reg jobId = .ok j) ∧
    (j.status ≠ .completed →
      jobTableHandleView j = none ∧ jobTableHandleDownload j = none) ∧
    (j.status = .completed →
      jobTableHandleView j = some j.id ∧ jobTableHandleDownload j = some j.id) ∧
    (∀ s, UIAction.view ∈ jobQueueActions s ↔ s = .completed) ∧
    (∀ s, UIAction.download ∈ jobQueueActions s ↔ s = .completed) := by
  refine ⟨?_, ?_, ?_, ?_, ?_, ?_⟩
  · intro hfind hnc
    simp [getResult, hfind, hnc]
  · intro hfind hc
    simp [getResult, hfind, hc]
  · intro hnc
    simp [jobTableHandleView, jobTableHandleDownload, hnc]
  · intro hc
    simp [jobTableHandleView, jobTableHandleDownload, hc]
  · intro s
    cases s <;> decide
  · intro s
    cases s <;> decide

/-- Witness for C6: a pending job yields InvalidState and no client
request, a completed job yields the result and the download request. -/
theorem get_result_invalid_state_and_client_gating_witness :
    getResult [samplePendingJob] 1 = .error .invalidState ∧
    getResult [sampleCompletedJob] 2 = .ok sampleCompletedJob ∧
    jobTableHandleDownload samplePendingJob = none ∧
    jobTableHandleDownload sampleCompletedJob = some 2 :=
  ⟨(get_result_invalid_state_and_client_gating [samplePendingJob] 1
      samplePendingJob).1 (by decide) (by decide),
   (get_result_invalid_state_and_client_gating [sampleCompletedJob] 2
      sampleCompletedJob).2.1 (by decide) (by decide),
   ((get_result_invalid_state_and_client_gating [samplePendingJob] 1
      samplePendingJob).2.2.1 (by decide)).2,
   ((get_result_invalid_state_and_client_gating [sampleCompletedJob] 2
      sampleCompletedJob).2.2.2.1 (by decide)).2⟩

/-- Filters object passed to apiService.getJobs; a field holding none
stands for a JS object without that key (undefined). -/
structure JobFilters where
  job_type : Option String := none
  status : Option String := none
  archived : Option Nat := none
  limit : Option Nat := none
  offset : Option Nat := none
deriving DecidableEq, Repr

/-- JS truthiness of a possibly-absent string: present and non-empty. -/
def jsTruthyStr : Option String → Bool
  | none => false
  | some s => !(s == "")

/-- JS truthiness of a possibly-absent number: present and non-zero. -/
def jsTruthyNat : Option Nat → Bool
  | none => false
  | some n => !(n == 0)

/-- Query parameters built by apiService.getJobs (part_000): job_type,
status, limit and offset are appended only when truthy, archived is
appended whenever it is not undefined, in this order. -/
def getJobsParams (f : JobFilters) : List (String × String) :=
  (if jsTruthyStr f.job_type then [("job_type", f.job_type.getD "")] else []) ++
  (if jsTruthyStr f.status then [("status", f.status.getD "")] else []) ++
  (if f.archived.isSome then [("archived", toString (f.archived.getD 0))] else []) ++
  (if jsTruthyNat f.limit then [("limit", toString (f.limit.getD 0))] else []) ++
  (if jsTruthyNat f.offset then [("offset", toString (f.offset.getD 0))] else [])

/-- Keys of the query string sent by getJobs. -/
def paramKeys (f : JobFilters) : List String :=
  (getJobsParams f).map Prod.fst

/-- Filters used by the JobQueue component for the default queue views
(JobQueue.jsx line 7): the given job type and archived set to 0. -/
def jobQueueFilters (jobType : String) : JobFilters :=
  { job_type := some jobType, archived := some 0 }

/-- Filters used by the archive page (ArchivePage.jsx line 6). -/
def archivePageFilters : JobFilters :=
  { archived := some 1 }

/-- Filters used by the transcript selector feeding the enhance submission
path (TranscriptSelector.jsx lines 4 to 8). -/
def transcriptSelectorFilters : JobFilters :=
  { job_type := some "transcribe", status := some "completed", archived := some 0 }

theorem mem_paramKeys_iff (f : JobFilters) (k : String) :
    k ∈ paramKeys f ↔
      (k = "job_type" ∧ jsTruthyStr f.job_type = true) ∨
      (k = "status" ∧ jsTruthyStr f.status = true) ∨
      (k = "archived" ∧ f.archived.isSome = true) ∨
      (k = "limit" ∧ jsTruthyNat f.limit = true) ∨
      (k = "offset" ∧ jsTruthyNat f.offset = true) := by
  unfold paramKeys getJobsParams
  split_ifs <;> simp_all

theorem jsTruthyNat_iff (o : Option Nat) :
    jsTruthyNat o = true ↔ ∃ v, o = some v ∧ v ≠ 0 := by
  cases o <;> simp [jsTruthyNat]

/-- C5: the archived filter is tri-state: the archived query parameter is
sent exactly when the filters object carries an archived value (0 and 1
both transmitted) and omitted otherwise; the default queue views request
archived=0 together with their job type, and the archive view requests
archived=1. -/
theorem archived_filter_tri_state (f : JobFilters) (jobType : String)
    (hjt : jobType ≠ "") :
    ("archived" ∈ paramKeys f ↔ f.archived.isSome = true) ∧
    getJobsParams (jobQueueFilters jobType) =
      [("job_type", jobType), ("archived", "0")] ∧
    getJobsParams archivePageFilters = [("archived", "1")] := by
  refine ⟨?_, ?_, ?_⟩
  · rw [mem_paramKeys_iff]
    simp
  · simp [getJobsParams, jobQueueFilters, jsTruthyStr, jsTruthyNat, hjt]
    rfl
  · simp [getJobsParams, archivePageFilters, jsTruthyStr, jsTruthyNat]
    rfl

/-- Witness for C5 at the transcribe queue view and a filters object with
no archived key. -/
theorem archived_filter_tri_state_witness :
    ("archived" ∈ paramKeys { } ↔ (JobFilters.archived { }).isSome = true) ∧
    getJobsParams (jobQueueFilters "transcribe") =
      [("job_type", "transcribe"), ("archived", "0")] ∧
    getJobsParams archivePageFilters = [("archived", "1")] :=
  archived_filter_tri_state { } "transcribe" (by decide)

/-- C9: getJobsParams is asymmetric: limit and offset (like job_type and
status) are appended only when truthy, so a zero limit or offset is
silently omitted and cannot be expressed, while archived is appended
whenever it is present, so archived=0 is transmitted. -/
theorem getJobs_query_truthiness_asymmetry (f : JobFilters) :
    ("limit" ∈ paramKeys f ↔ ∃ v, f.limit = some v ∧ v ≠ 0) ∧
    ("offset" ∈ paramKeys f ↔ ∃ v, f.offset = some v ∧ v ≠ 0) ∧
    ("archived" ∈ paramKeys f ↔ f.archived.isSome = true) ∧
    getJobsParams { limit := some 0, offset := some 0, archived := some 0 } =
      [("archived", "0")] := by
  refine ⟨?_, ?_, ?_, ?_⟩
  · rw [mem_paramKeys_iff, ← jsTruthyNat_iff]
    simp
  · rw [mem_paramKeys_iff, ← jsTruthyNat_iff]
    simp
  · rw [mem_paramKeys_iff]
    simp
  · simp [getJobsParams, jsTruthyStr, jsTruthyNat]
    rfl

/-- Witness for C9: with limit 0, offset 0 and archived 0 the query
carries only the archived pair. -/
theorem getJobs_query_truthiness_asymmetry_witness :
    ¬ ("limit" ∈ paramKeys { limit := some 0, offset := some 0, archived := some 0 }) ∧
    getJobsParams { limit := some 0, offset := some 0, archived := some 0 } =
      [("archived", "0")] :=
  ⟨fun h =>
    by
      rcases (getJobs_query_truthiness_asymmetry
        { limit := some 0, offset := some 0, archived := some 0 }).1.mp h with ⟨v, hv, hne⟩
      exact hne (by simpa using hv.symm),
   (getJobs_query_truthiness_asymmetry { }).2.2.2⟩

/-- C4: submit(enhance, input_ref, parameters) succeeds exactly when the
referenced source job exists with status completed, and otherwise fails
with InvalidPrecondition creating no job row; the enhance submission path
fetches its candidate source jobs with the filters job_type=transcribe,
status=completed, archived=0, so an enhance request is only issued for a
completed transcribe job. -/
theorem submit_enhance_requires_completed_source
    (reg : Registry) (sourceId newId : Nat) :
    (findJob reg sourceId = none →
      submitEnhance reg sourceId newId = .error .invalidPrecondition) ∧
    (∀ src, findJob reg sourceId = some src → src.status ≠ .completed →
      submitEnhance reg sourceId newId = .error .invalidPrecondition) ∧
    (∀ src, findJob reg sourceId = some src → src.status = .completed →
      submitEnhance reg sourceId newId =
        .ok (reg ++ [{ id := newId, job_type := .enhance, status := .pending,
                       progress := 0, archived := false, auto_enhance := false }])) ∧
    getJobsParams transcriptSelectorFilters =
      [("job_type", "transcribe"), ("status", "completed"), ("archived", "0")] := by
  refine ⟨?_, ?_, ?_, ?_⟩
  · intro hnone
    simp [submitEnhance, hnone]
  · intro src hfind hnc
    simp [submitEnhance, hfind, hnc]
  · intro src hfind hc
    simp [submitEnhance, hfind, hc]
  · simp [getJobsParams, transcriptSelectorFilters, jsTruthyStr, jsTruthyNat]
    rfl

/-- Witness for C4: an enhance referencing a pending source fails with
InvalidPrecondition, one referencing a completed source creates the
pending enhance row. -/
theorem submit_enhance_requires_completed_source_witness :
    submitEnhance [samplePendingJob] 1 7 = .error .invalidPrecondition ∧
    submitEnhance [sampleCompletedJob] 2 7 =
      .ok [sampleCompletedJob,
           { id := 7, job_type := .enhance, status := .pending,
             progress := 0, archived := false, auto_enhance := false }] :=
  ⟨(submit_enhance_requires_completed_source [samplePendingJob] 1 7).2.1
      samplePendingJob (by decide) (by decide),
   (submit_enhance_requires_completed_source [sampleCompletedJob] 2 7).2.2.1
      sampleCompletedJob (by decide) (by decide)⟩

/-- The list of jobs offered by TranscriptSelector: the fetched jobs with
a falsy auto_enhance flag (TranscriptSelector.jsx line 11). -/
def availableJobs (jobs : List Job) : List Job :=
  jobs.filter (fun j => !j.auto_enhance)

/-- C10: the transcripts offered for enhancement are exactly the fetched
jobs whose auto_enhance flag is false, so a job created with
auto_enhance = true is never selectable as an enhance source. -/
theorem transcript_selector_excludes_auto_enhanced (jobs : List Job) (j : Job) :
    (j ∈ availableJobs jobs ↔ j ∈ jobs ∧ j.auto_enhance = false) ∧
    (j.auto_enhance = true → j ∉ availableJobs jobs) := by
  constructor
  · simp [availableJobs]
  · intro hauto hmem
    rcases (by simpa [availableJobs] using hmem : j ∈ jobs ∧ j.auto_enhance = false)
      with ⟨-, hfalse⟩
    rw [hauto] at hfalse
    exact Bool.noConfusion hfalse

/-- Witness for C10 at a two-job list where one job was auto-enhanced. -/
theorem transcript_selector_excludes_auto_enhanced_witness :
    sampleCompletedJob ∈
      availableJobs [sampleCompletedJob,
        { sampleCompletedJob with id := 3, auto_enhance := true }] ∧
    { sampleCompletedJob with id := 3, auto_enhance := true } ∉
      availableJobs [sampleCompletedJob,
        { sampleCompletedJob with id := 3, auto_enhance := true }] :=
  ⟨(transcript_selector_excludes_auto_enhanced _ sampleCompletedJob).1.mpr
      ⟨by simp, rfl⟩,
   (transcript_selector_excludes_auto_enhanced _ _).2 rfl⟩

/-- Transcription options object assembled by TranscribeOptions: its six
configurable fields plus the start and end time the submission path sets. -/
structure TranscribeOpts where
  enable_timestamp : Bool := true
  enable_chunked : Bool := false
  chunk_length : Nat := 30
  translate_to : String := ""
  auto_enhance : Bool := false
  enhancement_prompt : String := ""
  start_time : Option Nat := none
  end_time : Option Nat := none
deriving DecidableEq, Repr

/-- Request body built by TranscribePage.handleSubmitSingle: the configured
options spread unchanged, with start_time and end_time fixed to null for
every submission. -/
def buildTranscribeRequest (o : TranscribeOpts) : TranscribeOpts :=
  { o with start_time := none, end_time := none }

/-- Enhancement options object assembled by EnhanceOptions. -/
structure EnhanceOpts where
  translate_to : String := ""
  enhancement_prompt : String := ""
deriving DecidableEq, Repr

/-- Request body built by apiService.createEnhanceJob: the source job id
together with the options spread unchanged. -/
structure EnhanceRequest where
  job_id : Nat
  translate_to : String
  enhancement_prompt : String
deriving DecidableEq, Repr

def buildEnhanceRequest (jobId : Nat) (o : EnhanceOpts) : EnhanceRequest :=
  { job_id := jobId, translate_to := o.translate_to,
    enhancement_prompt := o.enhancement_prompt }

/-- A registry row carrying the frozen parameters snapshot of a job. -/
structure ParamRow where
  id : Nat
  parameters : TranscribeOpts
deriving DecidableEq, Repr

/-- Modelled from the spec: submit writes a new job row whose parameters
column is the transmitted request body, frozen at creation and never
mutated afterwards (the backend is not under src/; this follows the
parameters field description in section 3 of the spec). -/
def submitWithParams (reg : List ParamRow) (newId : Nat)
    (body : TranscribeOpts) : List ParamRow :=
  reg ++ [{ id := newId, parameters := body }]

/-- Read-back of the stored parameters of a job by id. -/
def readBackParams (reg : List ParamRow) (jobId : Nat) : Option TranscribeOpts :=
  (reg.find? (fun r => r.id == jobId)).map ParamRow.parameters

theorem find?_append_of_none {α : Type} (p : α → Bool) (l₁ l₂ : List α)
    (h : l₁.find? p = none) : (l₁ ++ l₂).find? p = l₂.find? p := by
  induction l₁ with
  | nil => rfl
  | cons a l ih =>
      rw [List.find?_cons] at h
      rcases hpa : p a with hf | ht
      · rw [hpa] at h
        simp only [List.cons_append, List.find?_cons, hpa]
        exact ih h
      · rw [hpa] at h
        exact absurd h (by simp)

/-- C7: the transcribe submission transmits the configured options
unchanged except that start_time and end_time are fixed to null, the
enhance submission transmits the source job id and the options unchanged,
and the frozen parameters snapshot read back for the created job equals
exactly the transmitted body. -/
theorem parameters_roundtrip (reg : List ParamRow) (newId : Nat)
    (o : TranscribeOpts) (jobId : Nat) (eo : EnhanceOpts)
    (hfresh : ∀ r ∈ reg, r.id ≠ newId) :
    readBackParams (submitWithParams reg newId (buildTranscribeRequest o)) newId
      = some (buildTranscribeRequest o) ∧
    (buildTranscribeRequest o).enable_timestamp = o.enable_timestamp ∧
    (buildTranscribeRequest o).enable_chunked = o.enable_chunked ∧
    (buildTranscribeRequest o).chunk_length = o.chunk_length ∧
    (buildTranscribeRequest o).translate_to = o.translate_to ∧
    (buildTranscribeRequest o).auto_enhance = o.auto_enhance ∧
    (buildTranscribeRequest o).enhancement_prompt = o.enhancement_prompt ∧
    (buildTranscribeRequest o).start_time = none ∧
    (buildTranscribeRequest o).end_time = none ∧
    (buildEnhanceRequest jobId eo).job_id = jobId ∧
    (buildEnhanceRequest jobId eo).translate_to = eo.translate_to ∧
    (buildEnhanceRequest jobId eo).enhancement_prompt = eo.enhancement_prompt := by
  refine ⟨?_, rfl, rfl, rfl, rfl, rfl, rfl, rfl, rfl, rfl, rfl, rfl⟩
  unfold readBackParams submitWithParams
  have hnone : reg.find? (fun r => r.id == newId) = none := by
    rw [List.find?_eq_none]
    intro r hr
    simp [hfresh r hr]
  rw [find?_append_of_none _ _ _ hnone]
  simp [List.find?]

/-- Witness for C7 at the empty registry and the default options. -/
theorem parameters_roundtrip_witness :
    readBackParams (submitWithParams [] 5 (buildTranscribeRequest { })) 5
      = some (buildTranscribeRequest { }) ∧
    (buildTranscribeRequest { }).enable_timestamp = TranscribeOpts.enable_timestamp { } ∧
    (buildTranscribeRequest { }).enable_chunked = TranscribeOpts.enable_chunked { } ∧
    (buildTranscribeRequest { }).chunk_length = TranscribeOpts.chunk_length { } ∧
    (buildTranscribeRequest { }).translate_to = TranscribeOpts.translate_to { } ∧
    (buildTranscribeRequest { }).auto_enhance = TranscribeOpts.auto_enhance { } ∧
    (buildTranscribeRequest { }).enhancement_prompt = TranscribeOpts.enhancement_prompt { } ∧
    (buildTranscribeRequest { }).start_time = none ∧
    (buildTranscribeRequest { }).end_time = none ∧
    (buildEnhanceRequest 3 { }).job_id = 3 ∧
    (buildEnhanceRequest 3 { }).translate_to = EnhanceOpts.translate_to { } ∧
    (buildEnhanceRequest 3 { }).enhancement_prompt = EnhanceOpts.enhancement_prompt { } :=
  parameters_roundtrip [] 5 { } 3 { } (by simp)

/-- Decimal digit character. -/
def digitChar (d : Nat) : Char := Char.ofNat (48 + d)

/-- Numeric value of a digit character. -/
def charVal (c : Char) : Nat := c.toNat - 48

/-- Fuel-indexed decimal rendering; a fuel of n suffices for the value n. -/
def natDigits : Nat → Nat → List Char
  | 0, n => [digitChar (n % 10)]
  | fuel + 1, n =>
      if n < 10 then [digitChar n]
      else natDigits fuel (n / 10) ++ [digitChar (n % 10)]

/-- Model of the JS String() conversion of a non-negative integer. -/
def natRepr (n : Nat) : List Char := natDigits n n

/-- Model of the JS Number() conversion applied to a decimal digit string
(the only strings these claims reach: timestamp fields matched by the
two-digit regex and formatTime output). -/
def parseDigits (cs : List Char) : Nat :=
  cs.foldl (fun a c => a * 10 + charVal c) 0

/-- Model of the JS padStart(2, zero) applied to String(n). -/
def pad2 (n : Nat) : List Char :=
  if (natRepr n).length < 2 then
    List.replicate (2 - (natRepr n).length) '0' ++ natRepr n
  else natRepr n

/-- Model of TranscriptViewer formatTime (App.jsx): hours, minutes and
seconds each zero-padded to at least two digits, joined by colons.  The JS
guard returning the zero time string for a falsy argument agrees with this
on the argument 0. -/
def formatTime (n : Nat) : List Char :=
  pad2 (n / 3600) ++ ':' :: (pad2 (n % 3600 / 60) ++ ':' :: pad2 (n % 60))

/-- Split on the colon character, as the split call in timeToSeconds. -/
def splitOnColon : List Char → List (List Char)
  | [] => [[]]
  | c :: rest =>
      if c = ':' then [] :: splitOnColon rest
      else
        match splitOnColon rest with
        | [] => [[c]]
        | h :: t => (c :: h) :: t

/-- Model of TranscriptViewer timeToSeconds (App.jsx): split on colons,
convert each piece with Number, then three parts are hours, minutes,
seconds, two parts are minutes, seconds, anything else yields 0. -/
def timeToSeconds (cs : List Char) : Nat :=
  match (splitOnColon cs).map parseDigits with
  | [h, m, s] => h * 3600 + m * 60 + s
  | [m, s] => m * 60 + s
  | _ => 0

theorem charVal_digitChar {d : Nat} (hd : d < 10) :
    charVal (digitChar d) = d := by
  interval_cases d <;> decide

theorem digitChar_ne_colon {d : Nat} (hd : d < 10) : digitChar d ≠ ':' := by
  interval_cases d <;> decide

theorem natDigits_foldl (fuel : Nat) :
    ∀ n acc, n ≤ fuel →
      (natDigits fuel n).foldl (fun a c => a * 10 + charVal c) acc =
        acc * 10 ^ (natDigits fuel n).length + n := by
  induction fuel with
  | zero =>
      intro n acc hn
      interval_cases n
      simp [natDigits, charVal_digitChar (by norm_num : (0 : Nat) % 10 < 10)]
  | succ fuel ih =>
      intro n acc hn
      by_cases hsmall : n < 10
      · simp [natDigits, hsmall, charVal_digitChar hsmall]
      · have hdiv : n / 10 ≤ fuel := by omega
        have hmod : n % 10 < 10 := Nat.mod_lt _ (by norm_num)
        simp only [natDigits, hsmall, if_false, List.foldl_append,
          List.length_append, List.foldl_cons, List.foldl_nil,
          List.length_cons, List.length_nil, Nat.zero_add]
        rw [ih (n / 10) acc hdiv, charVal_digitChar hmod]
        have : (acc * 10 ^ (natDigits fuel (n / 10)).length + n / 10) * 10 =
            acc * 10 ^ ((natDigits fuel (n / 10)).length + 1) + n / 10 * 10 := by
          ring
        rw [this]
        omega

theorem parseDigits_natRepr (n : Nat) : parseDigits (natRepr n) = n := by
  have h := natDigits_foldl n n 0 le_rfl
  simpa [parseDigits, natRepr] using h

theorem natRepr_of_lt_ten {n : Nat} (hn : n < 10) :
    natRepr n = [digitChar n] := by
  unfold natRepr
  cases n with
  | zero => simp [natDigits]
  | succ m => simp [natDigits, hn]

theorem natDigits_ne_nil (fuel n : Nat) : natDigits fuel n ≠ [] := by
  cases fuel with
  | zero => simp [natDigits]
  | succ f =>
      by_cases hsmall : n < 10 <;> simp [natDigits, hsmall]

theorem natRepr_length_of_ge_ten {n : Nat} (hn : 10 ≤ n) :
    2 ≤ (natRepr n).length := by
  obtain ⟨m, rfl⟩ : ∃ m, n = m + 1 := ⟨n - 1, by omega⟩
  unfold natRepr
  have hsmall : ¬ (m + 1 < 10) := by omega
  simp only [natDigits, hsmall, if_false, List.length_append,
    List.length_cons, List.length_nil]
  have := natDigits_ne_nil m ((m + 1) / 10)
  have hpos : 0 < (natDigits m ((m + 1) / 10)).length :=
    List.length_pos.mpr this
  omega

theorem pad2_eq (n : Nat) :
    pad2 n = if n < 10 then '0' :: natRepr n else natRepr n := by
  by_cases hn : n < 10
  · have h1 : natRepr n = [digitChar n] := natRepr_of_lt_ten hn
    simp [pad2, h1, hn, List.replicate]
  · have h2 : 2 ≤ (natRepr n).length := natRepr_length_of_ge_ten (by omega)
    have : ¬ (natRepr n).length < 2 := by omega
    simp [pad2, this, hn]

theorem parseDigits_pad2 (n : Nat) : parseDigits (pad2 n) = n := by
  rw [pad2_eq]
  by_cases hn : n < 10
  · simp only [hn, if_true, parseDigits, List.foldl_cons]
    have hz : charVal '0' = 0 := by decide
    rw [hz]
    simpa [parseDigits] using parseDigits_natRepr n
  · simp only [hn, if_false]
    exact parseDigits_natRepr n

theorem natDigits_mem_digit (fuel : Nat) :
    ∀ n c, c ∈ natDigits fuel n → ∃ d, d < 10 ∧ c = digitChar d := by
  induction fuel with
  | zero =>
      intro n c hc
      simp [natDigits] at hc
      exact ⟨n % 10, Nat.mod_lt _ (by norm_num), hc⟩
  | succ fuel ih =>
      intro n c hc
      by_cases hsmall : n < 10
      · simp [natDigits, hsmall] at hc
        exact ⟨n, hsmall, hc⟩
      · simp only [natDigits, hsmall, if_false, List.mem_append,
          List.mem_singleton] at hc
        rcases hc with hc | hc
        · exact ih _ _ hc
        · exact ⟨n % 10, Nat.mod_lt _ (by norm_num), hc⟩

theorem pad2_no_colon (n : Nat) : ∀ c ∈ pad2 n, c ≠ ':' := by
  intro c hc
  rw [pad2_eq] at hc
  have hrepr : ∀ e ∈ natRepr n, e ≠ ':' := by
    intro e he
    rcases natDigits_mem_digit n n e he with ⟨d, hd, rfl⟩
    exact digitChar_ne_colon hd
  by_cases hn : n < 10
  · simp only [hn, if_true, List.mem_cons] at hc
    rcases hc with rfl | hc
    · decide
    · exact hrepr c hc
  · simp only [hn, if_false] at hc
    exact hrepr c hc

theorem splitOnColon_no_colon {cs : List Char} (h : ∀ c ∈ cs, c ≠ ':') :
    splitOnColon cs = [cs] := by
  induction cs with
  | nil => rfl
  | cons c rest ih =>
      have hc : c ≠ ':' := h c (by simp)
      have hrest := ih (fun e he => h e (by simp [he]))
      simp only [splitOnColon, hc, if_false, hrest]

theorem splitOnColon_append {a : List Char} (rest : List Char)
    (h : ∀ c ∈ a, c ≠ ':') :
    splitOnColon (a ++ ':' :: rest) = a :: splitOnColon rest := by
  induction a with
  | nil => simp [splitOnColon]
  | cons c a ih =>
      have hc : c ≠ ':' := h c (by simp)
      have ha := ih (fun e he => h e (by simp [he]))
      simp only [List.cons_append, splitOnColon, hc, if_false, List.append_eq, ha]

theorem splitOnColon_formatTime (x y z : Nat) :
    splitOnColon (pad2 x ++ ':' :: (pad2 y ++ ':' :: pad2 z)) =
      [pad2 x, pad2 y, pad2 z] := by
  rw [splitOnColon_append _ (pad2_no_colon x),
    splitOnColon_append _ (pad2_no_colon y),
    splitOnColon_no_colon (pad2_no_colon z)]

/-- C8: the TranscriptViewer time conversions are mutually inverse: for
every number of seconds n, timeToSeconds (formatTime n) = n, and for every
well-formed time string built from hours h, minutes m below 60 and seconds
s below 60, each rendered as at least two zero-padded digits,
formatTime (timeToSeconds of that string) returns the same string. -/
theorem time_conversion_roundtrip (n h m s : Nat)
    (hm : m < 60) (hs : s < 60) :
    timeToSeconds (formatTime n) = n ∧
    formatTime (timeToSeconds (pad2 h ++ ':' :: (pad2 m ++ ':' :: pad2 s))) =
      pad2 h ++ ':' :: (pad2 m ++ ':' :: pad2 s) := by
  constructor
  · unfold formatTime timeToSeconds
    rw [splitOnColon_formatTime]
    simp only [List.map_cons, List.map_nil, parseDigits_pad2]
    omega
  · have hval : timeToSeconds (pad2 h ++ ':' :: (pad2 m ++ ':' :: pad2 s)) =
        h * 3600 + m * 60 + s := by
      unfold timeToSeconds
      rw [splitOnColon_formatTime]
      simp [parseDigits_pad2]
    rw [hval]
    unfold formatTime
    have h1 : (h * 3600 + m * 60 + s) / 3600 = h := by omega
    have h2 : (h * 3600 + m * 60 + s) % 3600 / 60 = m := by omega
    have h3 : (h * 3600 + m * 60 + s) % 60 = s := by omega
    rw [h1, h2, h3]

/-- Witness for C8 at 3661 seconds and the time string 01:02:03. -/
theorem time_conversion_roundtrip_witness :
    timeToSeconds (formatTime 3661) = 3661 ∧
    formatTime (timeToSeconds (pad2 1 ++ ':' :: (pad2 2 ++ ':' :: pad2 3))) =
      pad2 1 ++ ':' :: (pad2 2 ++ ':' :: pad2 3) :=
  time_conversion_roundtrip 3661 1 2 3 (by decide) (by decide)

end WhisperWebUI
